import Mathlib

/-!
Verification development for the Auto-Reversi repository (src/game.py,
src/bot.py).  The Python sources are shallowly embedded below: pure
functions become Lean functions, the mutable `Game` object becomes a
record threaded through the operations, Python `while` loops become
fuel-indexed structural recursions (an exhausted fuel or an out-of-range
index is `none`, matching a Python loop that has not finished or an
uncaught `IndexError`), and Python list indexing (including negative-index
wrap-around) is modelled by `pyIdx`/`pyGet`/`pySet`.
-/

set_option maxHeartbeats 1000000

/-- `COLOR` from src/game.py: state of a cell (black / white / untouched). -/
inductive COLOR
  | BLACK
  | WHITE
  | UNTOUCHED
deriving DecidableEq, Repr

/-- `GAMESTATE` from src/game.py. -/
inductive GAMESTATE
  | INIT_STATE
  | RUNNING_BLACK
  | RUNNING_WHITE
  | WIN_BLACK
  | WIN_WHITE
  | DRAW
deriving DecidableEq, Repr

/-- `GAMESTATE.is_running` from src/game.py. -/
def GAMESTATE.is_running : GAMESTATE → Bool
  | GAMESTATE.RUNNING_BLACK => true
  | GAMESTATE.RUNNING_WHITE => true
  | _ => false

/-- `GAMESTATE.is_finished` from src/game.py. -/
def GAMESTATE.is_finished : GAMESTATE → Bool
  | GAMESTATE.WIN_BLACK => true
  | GAMESTATE.WIN_WHITE => true
  | GAMESTATE.DRAW => true
  | _ => false

/-- A board is a Python list of rows, each a list of cells. -/
abbrev Board := List (List COLOR)

/-- The 8 compass directions, in the order listed in both source files. -/
def DIRECTIONS : List (Int × Int) :=
  [(-1, -1), (-1, 0), (-1, 1), (0, -1), (0, 1), (1, -1), (1, 0), (1, 1)]

/-- Python list index resolution: a non-negative index must be `< len`,
a negative index wraps once (`l[-1]` is the last element); anything else
raises `IndexError` (`none`). -/
def pyIdx (len : Nat) (i : Int) : Option Nat :=
  if 0 ≤ i then (if i < (len : Int) then some i.toNat else none)
  else (if 0 ≤ i + (len : Int) then some (i + (len : Int)).toNat else none)

/-- Python read `board[r][c]` (both indexes may wrap; `none` = `IndexError`). -/
def pyGet (b : Board) (r c : Int) : Option COLOR :=
  (pyIdx b.length r).bind fun ri =>
    (pyIdx (b.getD ri []).length c).map fun ci => (b.getD ri []).getD ci COLOR.UNTOUCHED

/-- Python write `board[r][c] = v` (`none` = `IndexError`). -/
def pySet (b : Board) (r c : Int) (v : COLOR) : Option Board :=
  (pyIdx b.length r).bind fun ri =>
    (pyIdx (b.getD ri []).length c).map fun ci => b.set ri ((b.getD ri []).set ci v)

/-- Cell read used where the source has already checked `0 <= r < size`. -/
def cellN (b : Board) (r c : Nat) : COLOR := (b.getD r []).getD c COLOR.UNTOUCHED

/-- Cell read at integer coordinates known to be non-negative and in range. -/
def cellI (b : Board) (r c : Int) : COLOR := cellN b r.toNat c.toNat

/-- Total write used for the guaranteed in-bounds assignments of `start`. -/
def setCell (b : Board) (r c : Nat) (v : COLOR) : Board :=
  b.set r ((b.getD r []).set c v)

/-- `0 <= r < BOARD_SIZE and 0 <= c < BOARD_SIZE` (BOARD_SIZE = 8 in src/game.py). -/
def inb (r c : Int) : Prop := 0 ≤ r ∧ r < 8 ∧ 0 ≤ c ∧ c < 8

instance (r c : Int) : Decidable (inb r c) := by unfold inb; infer_instance

/-- The `while` loop of `Game._search_available_directions` (src/game.py lines
135-138): starting from `(r, c)`, keep advancing by `d` and counting while the
cell is in bounds and holds the opponent color; returns the final `(r, c)` and
the count.  The loop advances at every step, so on the 8x8 board it makes at
most 8 iterations; every call below passes fuel 16. -/
def walkG (b : Board) (opp : COLOR) (d : Int × Int) : Nat → Int → Int → Nat → Int × Int × Nat
  | 0, r, c, k => (r, c, k)
  | fuel + 1, r, c, k =>
    if inb r c ∧ cellI b r c = opp then walkG b opp d fuel (r + d.1) (c + d.2) (k + 1)
    else (r, c, k)

/-- `Game._search_available_directions` (src/game.py): the directions `d` such
that walking from `(row+d, col+d)` crosses at least one opponent cell and ends,
still in bounds, on the mover's own color. -/
def searchDirsGame (b : Board) (my opp : COLOR) (row col : Nat) : List (Int × Int) :=
  DIRECTIONS.filter fun d =>
    let res := walkG b opp d 16 ((row : Int) + d.1) ((col : Int) + d.2) 0
    decide (0 < res.2.2 ∧ inb res.1 res.2.1 ∧ cellI b res.1 res.2.1 = my)

/-- `Game._search_legal_moves` (src/game.py): for every untouched cell, in
row-major scan order, record the cell with its non-empty direction list.
The Python dict preserves insertion order, so an association list in scan
order is a faithful model. -/
def searchLegalMovesGame (b : Board) (my opp : COLOR) : List ((Nat × Nat) × List (Int × Int)) :=
  (List.range 8).flatMap fun row =>
    (List.range 8).filterMap fun col =>
      if cellN b row col = COLOR.UNTOUCHED then
        (if searchDirsGame b my opp row col = [] then none
         else some ((row, col), searchDirsGame b my opp row col))
      else none

/-- The `Game` object of src/game.py: the board plus the private fields.
`my_color`/`opp_color` are `COLOR.UNTOUCHED` until the state setter first
assigns a running state (they model the initial Python `None`, which no
reachable code path reads before that assignment). -/
structure Game where
  board : Board
  state : GAMESTATE
  legal_moves : List ((Int × Int) × List (Int × Int))
  my_color : COLOR
  opp_color : COLOR
  remain : Nat
  white_count : Nat
  black_count : Nat
  no_move_round : Nat
deriving DecidableEq, Repr

/-- `Game.__init__` from src/game.py. -/
def Game.mk0 : Game where
  board := List.replicate 8 (List.replicate 8 COLOR.UNTOUCHED)
  state := GAMESTATE.INIT_STATE
  legal_moves := []
  my_color := COLOR.UNTOUCHED
  opp_color := COLOR.UNTOUCHED
  remain := 0
  white_count := 0
  black_count := 0
  no_move_round := 0

/-- The `state` property setter of src/game.py: stores the state and, for the
two running states, redefines `my_color`/`opponent_color` as a side effect. -/
def setState (g : Game) (v : GAMESTATE) : Game :=
  if v = GAMESTATE.RUNNING_BLACK then
    { g with state := v, my_color := COLOR.BLACK, opp_color := COLOR.WHITE }
  else if v = GAMESTATE.RUNNING_WHITE then
    { g with state := v, my_color := COLOR.WHITE, opp_color := COLOR.BLACK }
  else { g with state := v }

/-- `Game._count_board` from src/game.py. -/
def countColor (b : Board) (col : COLOR) : Nat :=
  (List.range 8).foldl
    (fun acc row => (List.range 8).foldl
      (fun acc2 c => if cellN b row c = col then acc2 + 1 else acc2) acc) 0

/-- `Game._count_board`: recompute the three counters from the board. -/
def countBoardG (g : Game) : Game :=
  { g with remain := countColor g.board COLOR.UNTOUCHED,
           white_count := countColor g.board COLOR.WHITE,
           black_count := countColor g.board COLOR.BLACK }

/-- `Game._end` from src/game.py: decide the winner by comparing counts. -/
def endGame (g : Game) : Game :=
  if g.white_count = g.black_count then setState g GAMESTATE.DRAW
  else if g.black_count < g.white_count then setState g GAMESTATE.WIN_WHITE
  else setState g GAMESTATE.WIN_BLACK

/-- Association-list lookup modelling `self._legal_moves[(row, col)]`
(`none` = `KeyError`). -/
def findMove : List ((Int × Int) × List (Int × Int)) → Int → Int → Option (List (Int × Int))
  | [], _, _ => none
  | (k, ds) :: rest, r, c => if k = (r, c) then some ds else findMove rest r c

/-- Keys of `Game._legal_moves` are the Python ints produced by `range`. -/
def intKeys (l : List ((Nat × Nat) × List (Int × Int))) : List ((Int × Int) × List (Int × Int)) :=
  l.map fun e => (((e.1.1 : Int), (e.1.2 : Int)), e.2)

/-- `Game._switch_side` from src/game.py: assert the game is running (`none`
models a failed `assert`), flip the running state (the setter swaps the
colors), recompute the legal moves for the NEW side; install them if
non-empty, otherwise bump `no_move_round` and end the game once it reaches 2.
Note that when the new side has no legal move and the counter is still 1,
the state and the stale `legal_moves` of the previous side are left as they
are. -/
def switchSide (g : Game) : Option Game :=
  if g.state.is_running = true then
    let g1 := setState g (if g.state = GAMESTATE.RUNNING_BLACK then GAMESTATE.RUNNING_WHITE
                          else GAMESTATE.RUNNING_BLACK)
    let lm := searchLegalMovesGame g1.board g1.my_color g1.opp_color
    some (if lm = [] then
            (let g2 := { g1 with no_move_round := g1.no_move_round + 1 }
             if 2 ≤ g2.no_move_round then endGame g2 else g2)
          else { g1 with no_move_round := 0, legal_moves := intKeys lm })
  else none

/-- The flip `while` loop of `Game.move` (src/game.py lines 100-103): from
`(r, c)`, while the cell holds the opponent color, recolor it and advance by
`d`.  The reads and writes are unguarded in the source, so they go through
`pyGet`/`pySet`; `none` covers both an `IndexError` and an exhausted fuel. -/
def flipG (my opp : COLOR) (d : Int × Int) : Nat → Int → Int → Board → Option Board
  | 0, _, _, _ => none
  | fuel + 1, r, c, b =>
    match pyGet b r c with
    | none => none
    | some col =>
      if col = opp then
        match pySet b r c my with
        | none => none
        | some b2 => flipG my opp d fuel (r + d.1) (c + d.2) b2
      else some b

/-- The `for d in available_directions` loop of `Game.move`. -/
def flipAllG (my opp : COLOR) (row col : Int) : List (Int × Int) → Board → Option Board
  | [], b => some b
  | d :: ds, b => (flipG my opp d 16 (row + d.1) (col + d.2) b).bind (flipAllG my opp row col ds)

/-- `Game.move` from src/game.py.  A `(row, col)` that is not a key of
`_legal_moves` raises `KeyError`, which the source catches ("Not a legal
move!") and returns with the game unchanged, hence `some g`.  Otherwise the
cell is set to the mover's color, the recorded directions are flipped, the
counts are recomputed, and the game either ends (board full) or switches
side.  `none` models an uncaught exception or a non-terminating flip loop. -/
def moveG (g : Game) (row col : Int) : Option Game :=
  match findMove g.legal_moves row col with
  | none => some g
  | some dirs =>
    (pySet g.board row col g.my_color).bind fun b0 =>
    (flipAllG g.my_color g.opp_color row col dirs b0).bind fun b1 =>
    (let g1 := countBoardG { g with board := b1 }
     if g1.remain = 0 then some (endGame g1) else switchSide g1)

/-- `Game.start` from src/game.py.  `random.shuffle` over the two-element
list `[BLACK, WHITE]` has exactly two outcomes, selected here by `coin`
(`coin = true` keeps `colors = [BLACK, WHITE]`).  The four centre cells are
placed, the counts recomputed, the state set from `black_first` (which also
assigns the colors), and the initial legal-move map computed.  The source
performs no state check. -/
def startG (g : Game) (black_first coin : Bool) : Game :=
  let c0 := if coin then COLOR.BLACK else COLOR.WHITE
  let c1 := if coin then COLOR.WHITE else COLOR.BLACK
  let b := setCell (setCell (setCell (setCell g.board 3 3 c0) 3 4 c1) 4 3 c1) 4 4 c0
  let g1 := countBoardG { g with board := b }
  let g2 := setState g1 (if black_first then GAMESTATE.RUNNING_BLACK else GAMESTATE.RUNNING_WHITE)
  { g2 with legal_moves := intKeys (searchLegalMovesGame g2.board g2.my_color g2.opp_color) }

/-! ## Search engine (src/bot.py) -/

/-- `len(board[0])` as used by `ReversiBot._search_legal_moves`. -/
def rowLen (b : Board) : Nat := (b.getD 0 []).length

/-- The inner `while` loop of the nested `_search_available_directions` in
`ReversiBot._search_legal_moves` (src/bot.py lines 87-90).  The loop body is
`count += 1; r, c = row + d[0], col + d[1]`: it resets `(r, c)` to the first
step instead of advancing, so the loop state `(r, c)` never changes after the
first entry.  The recursion is fuel-indexed; `none` means the loop has not
exited within the given fuel (and, since the state is constant, never will). -/
def botWalk (b : Board) (opp : COLOR) (row col : Int) (d : Int × Int) :
    Nat → Int × Int × Nat → Option (Int × Int × Nat)
  | 0, _ => none
  | fuel + 1, (r, c, k) =>
    if 0 ≤ r ∧ r < (b.length : Int) ∧ 0 ≤ c ∧ c < (rowLen b : Int) ∧ cellI b r c = opp then
      botWalk b opp row col d fuel (row + d.1, col + d.2, k + 1)
    else some (r, c, k)

/-- The nested `_search_available_directions` of src/bot.py (lines 81-95).
In the source the final `return d_list` statement is indented inside the
`for d in self.DIRECTIONS:` loop body, so the function returns at the end of
the FIRST iteration: only the first direction `(-1, -1)` is ever examined. -/
def botSearchDirs (b : Board) (my opp : COLOR) (row col : Nat) (fuel : Nat) :
    Option (List (Int × Int)) :=
  match DIRECTIONS with
  | [] => some []
  | d :: _ =>
    (botWalk b opp (row : Int) (col : Int) d fuel
        ((row : Int) + d.1, (col : Int) + d.2, 0)).map fun res =>
      if 0 < res.2.2 ∧ 0 ≤ res.1 ∧ res.1 < (b.length : Int) ∧ 0 ≤ res.2.1 ∧
          res.2.1 < (rowLen b : Int) ∧ cellI b res.1 res.2.1 = my
      then [d] else []

/-- The cell scan of `ReversiBot._search_legal_moves`, over an explicit list
of coordinates (row-major, matching the two `for` loops). -/
def botSearchCells (b : Board) (my opp : COLOR) (fuel : Nat) :
    List (Nat × Nat) → Option (List ((Nat × Nat) × List (Int × Int)))
  | [] => some []
  | (row, col) :: rest =>
    if cellN b row col = COLOR.UNTOUCHED then
      (botSearchDirs b my opp row col fuel).bind fun ds =>
        (botSearchCells b my opp fuel rest).map fun tail =>
          if ds = [] then tail else ((row, col), ds) :: tail
    else botSearchCells b my opp fuel rest

/-- Row-major list of all cell coordinates of the board
(`for row in range(len(board)): for col in range(len(board[0])):`). -/
def cellsOf (b : Board) : List (Nat × Nat) :=
  (List.range b.length).flatMap fun r => (List.range (rowLen b)).map fun c => (r, c)

/-- `ReversiBot._search_legal_moves` (src/bot.py): the mover's color is
`my_color` when `is_max` holds, `opponent_color` otherwise; the caller passes
the mover's pair directly as `(my, opp)` here. -/
def botSearchLegalMoves (b : Board) (my opp : COLOR) (fuel : Nat) :
    Option (List ((Nat × Nat) × List (Int × Int))) :=
  botSearchCells b my opp fuel (cellsOf b)

/-- The per-cell score weights of `ReversiBot._evaluate` (src/bot.py lines
117-133), as the function of position the built grid tabulates.  The branch
order follows the source: interior cells first, then corners (`bound`),
then cells with both coordinates in `around`, then the rest. -/
def weightsCode (size : Nat) (row col : Nat) : Int :=
  if 0 < row ∧ row < size - 1 ∧ 0 < col ∧ col < size - 1 then 1
  else if (row = 0 ∨ row = size - 1) ∧ (col = 0 ∨ col = size - 1) then 100
  else if (row = 0 ∨ row = 1 ∨ row = size - 2 ∨ row = size - 1) ∧
          (col = 0 ∨ col = 1 ∨ col = size - 2 ∨ col = size - 1) then -10
  else 10

/-- The cell-score double loop of `ReversiBot._evaluate` (src/bot.py lines
135-141): weight for the mover's cells, negated weight for the opponent's. -/
def cellScoreE (b : Board) (my opp : COLOR) : Int :=
  (List.range b.length).foldl
    (fun acc row => (List.range b.length).foldl
      (fun acc2 col =>
        if cellN b row col = my then acc2 + weightsCode b.length row col
        else if cellN b row col = opp then acc2 - weightsCode b.length row col
        else acc2) acc) 0

/-- `ReversiBot._evaluate` (src/bot.py): cell score plus freedom score.  The
freedom searches run the (fuel-indexed) legal-move scans, opponent first as in
the source; a non-terminating scan makes the whole evaluation `none`. -/
def evaluateE (b : Board) (my opp : COLOR) (fuel : Nat) : Option Int :=
  (botSearchLegalMoves b opp my fuel).bind fun om =>
    (botSearchLegalMoves b my opp fuel).map fun mm =>
      cellScoreE b my opp + ((if om = [] then 100 else 0) + (if mm = [] then -100 else 0))

/-- The flip loop of `ReversiBot._negamax` (src/bot.py lines 64-67):
`while new_board[r][c] == opponent_color: new_board[r][c] = my_color`.  The
body never advances `(r, c)`, so after one assignment the condition is false
(when the two colors differ) and the loop stops: at most the single adjacent
cell is recolored.  `none` models an `IndexError` on the unguarded read, or
the non-terminating loop that arises when `my = opp`. -/
def botFlipDir (b : Board) (my opp : COLOR) (row col : Nat) (d : Int × Int) : Option Board :=
  match pyGet b ((row : Int) + d.1) ((col : Int) + d.2) with
  | none => none
  | some v =>
    if v = opp then
      (if my = opp then none else pySet b ((row : Int) + d.1) ((col : Int) + d.2) my)
    else some b

/-- The `for d in directions` loop of `ReversiBot._negamax`. -/
def botFlipAll (my opp : COLOR) (row col : Nat) : List (Int × Int) → Board → Option Board
  | [], b => some b
  | d :: ds, b => (botFlipDir b my opp row col d).bind (botFlipAll my opp row col ds)

/-- Lines 61-67 of src/bot.py: deep-copy the board (value semantics here),
place the mover's piece, then run the per-direction flip loops. -/
def botApplyMove (b : Board) (my opp : COLOR) (row col : Nat)
    (dirs : List (Int × Int)) : Option Board :=
  (pySet b (row : Int) (col : Int) my).bind fun b0 => botFlipAll my opp row col dirs b0

/-- The `for move, directions in legal_moves.items()` loop of
`ReversiBot._negamax` (src/bot.py lines 58-78) with its alpha-beta pruning:
`rec` is the recursive call at `depth - 1` with swapped perspective, taking
the child's `(alpha, beta)` (the source passes `(-beta, -alpha)`).  The state
is `(alpha, max_move, max_score)`; a score reaching `beta` returns at once. -/
def negaLoop (rec : Board → Int → Int → Option (Option (Nat × Nat) × Int))
    (b : Board) (my opp : COLOR) (beta : Int) :
    List ((Nat × Nat) × List (Int × Int)) → Int → Option (Nat × Nat) → Int →
    Option (Option (Nat × Nat) × Int)
  | [], _, mm, ms => some (mm, ms)
  | (mv, dirs) :: rest, alpha, mm, ms =>
    (botApplyMove b my opp mv.1 mv.2 dirs).bind fun nb =>
      (rec nb (-beta) (-alpha)).bind fun pr =>
        let score := -pr.2
        if score > alpha ∧ score ≥ beta then some (some mv, score)
        else
          let alpha2 := if score > alpha then max alpha score else alpha
          let best := if score > ms then (some mv, score) else (mm, ms)
          negaLoop rec b my opp beta rest alpha2 best.1 best.2

/-- `ReversiBot.INF` (src/bot.py). -/
def INF : Int := 10000

/-- `ReversiBot._negamax` (src/bot.py lines 34-78), structurally recursive on
an outer call-frame fuel (each recursive Python call consumes one unit;
`none` = the recursion or one of the inner scans has not finished).  `depth`
is a natural number: `analyze` asserts `depth > 0` and every recursive call
passes `depth - 1`, so non-negative depths model every reachable call, with
`depth = 0` standing for Python's `depth <= 0` leaf test. -/
def negamaxE (my opp : COLOR) : Nat → Board → Nat → Int → Int → Bool →
    Option (Option (Nat × Nat) × Int)
  | 0, _, _, _, _, _ => none
  | fuel + 1, b, depth, alpha, beta, im =>
    let flag : Int := if im then 1 else -1
    let mc := if im then my else opp
    let oc := if im then opp else my
    if depth = 0 then (evaluateE b my opp (fuel + 1)).map fun v => (none, flag * v)
    else
      match botSearchLegalMoves b mc oc (fuel + 1) with
      | none => none
      | some lm =>
        if lm = [] then
          match botSearchLegalMoves b oc mc (fuel + 1) with
          | none => none
          | some olm =>
            if olm = [] then (evaluateE b my opp (fuel + 1)).map fun v => (none, flag * v)
            else (negamaxE my opp fuel b (depth - 1) (-beta) (-alpha) (!im)).map
                   fun pr => (none, -pr.2)
        else
          negaLoop (fun nb a2 b2 => negamaxE my opp fuel nb (depth - 1) a2 b2 (!im))
            b mc oc beta lm alpha none (-INF)

/-- `ReversiBot.analyze` (src/bot.py lines 26-32): assert that the game is
running and `depth > 0` (`none` = `AssertionError`), record the colors from
the game, and return the move of the root negamax call. -/
def analyzeE (g : Game) (depth : Int) (fuel : Nat) :
    Option (Option (Option (Nat × Nat) × Int)) :=
  if g.state.is_running = true ∧ 0 < depth then
    some (negamaxE g.my_color g.opp_color fuel g.board depth.toNat (-INF) INF true)
  else none

/-! ## Definitions modelled from the spec, for comparison -/

/-- Modelled from the spec: the loop of the un-pruned full minimax of spec
section 8 ("Alpha-beta result equivalence"), over the same tree: same move
enumeration and child recursion, first-encountered maximum kept, no
alpha/beta window and no cutoff. -/
def fullLoop (rec : Board → Option (Option (Nat × Nat) × Int))
    (b : Board) (my opp : COLOR) :
    List ((Nat × Nat) × List (Int × Int)) → Option (Nat × Nat) → Int →
    Option (Option (Nat × Nat) × Int)
  | [], mm, ms => some (mm, ms)
  | (mv, dirs) :: rest, mm, ms =>
    (botApplyMove b my opp mv.1 mv.2 dirs).bind fun nb =>
      (rec nb).bind fun pr =>
        let score := -pr.2
        let best := if score > ms then (some mv, score) else (mm, ms)
        fullLoop rec b my opp rest best.1 best.2

/-- Modelled from the spec: the un-pruned full minimax of spec section 8,
identical to `negamaxE` except that the candidate loop carries no alpha/beta
window and never cuts off. -/
def minimaxFullE (my opp : COLOR) : Nat → Board → Nat → Bool →
    Option (Option (Nat × Nat) × Int)
  | 0, _, _, _ => none
  | fuel + 1, b, depth, im =>
    let flag : Int := if im then 1 else -1
    let mc := if im then my else opp
    let oc := if im then opp else my
    if depth = 0 then (evaluateE b my opp (fuel + 1)).map fun v => (none, flag * v)
    else
      match botSearchLegalMoves b mc oc (fuel + 1) with
      | none => none
      | some lm =>
        if lm = [] then
          match botSearchLegalMoves b oc mc (fuel + 1) with
          | none => none
          | some olm =>
            if olm = [] then (evaluateE b my opp (fuel + 1)).map fun v => (none, flag * v)
            else (minimaxFullE my opp fuel b (depth - 1) (!im)).map fun pr => (none, -pr.2)
        else
          fullLoop (fun nb => minimaxFullE my opp fuel nb (depth - 1) (!im))
            b mc oc lm none (-INF)

/-- The weight grid exactly as claim C6 words it, read in order: corners
first; then cells of the 2-thick border (row or column in
`{0, 1, N-2, N-1}`); then interior cells; then remaining edge cells. -/
def weightsClaimC6 (size : Nat) (row col : Nat) : Int :=
  if (row = 0 ∨ row = size - 1) ∧ (col = 0 ∨ col = size - 1) then 100
  else if (row = 0 ∨ row = 1 ∨ row = size - 2 ∨ row = size - 1) ∨
          (col = 0 ∨ col = 1 ∨ col = size - 2 ∨ col = size - 1) then -10
  else if 0 < row ∧ row < size - 1 ∧ 0 < col ∧ col < size - 1 then 1
  else 10

/-- Cell score under the claim-C6 weight grid. -/
def cellScoreClaimC6 (b : Board) (my opp : COLOR) : Int :=
  (List.range b.length).foldl
    (fun acc row => (List.range b.length).foldl
      (fun acc2 col =>
        if cellN b row col = my then acc2 + weightsClaimC6 b.length row col
        else if cellN b row col = opp then acc2 - weightsClaimC6 b.length row col
        else acc2) acc) 0

/-- The static evaluation exactly as claim C6 states it: claim-grid cell
score plus the freedom bonuses, with "zero legal moves" read through the
spec's own (correct, 8-direction) move generation - the Game Engine scan. -/
def evalClaimC6 (b : Board) (my opp : COLOR) : Int :=
  cellScoreClaimC6 b my opp +
    ((if searchLegalMovesGame b opp my = [] then 100 else 0) +
     (if searchLegalMovesGame b my opp = [] then -100 else 0))

/-- The weight grid the code actually computes, stated flatly for the 8x8
board (the amended form of claim C6): corners 100; every cell off the outer
edge 1 (including the diagonal corner neighbours, which the interior branch
of the source captures first); the edge cells orthogonally adjacent to a
corner -10; the remaining edge cells 10. -/
def weightsAmendedN (row col : Nat) : Int :=
  if (row = 0 ∨ row = 7) ∧ (col = 0 ∨ col = 7) then 100
  else if 0 < row ∧ row < 7 ∧ 0 < col ∧ col < 7 then 1
  else if (row ≤ 1 ∨ 6 ≤ row) ∧ (col ≤ 1 ∨ 6 ≤ col) then -10
  else 10

/-- One cell's contribution to the amended cell score. -/
def cellTermAmended (b : Board) (my opp : COLOR) (row col : Nat) : Int :=
  if cellN b row col = my then weightsAmendedN row col
  else if cellN b row col = opp then -weightsAmendedN row col else 0

/-- The amended cell score: sum of the signed flat weights over the board. -/
def cellScoreAmended (b : Board) (my opp : COLOR) : Int :=
  ((List.range 8).map fun row =>
    ((List.range 8).map fun col => cellTermAmended b my opp row col).sum).sum

/-- The amended form of claim C6 for 8x8 boards: the evaluation is the
amended cell score plus the freedom bonuses, where "zero legal moves" is
what the Search Engine's own legal-move scan reports. -/
def evalAmended (b : Board) (my opp : COLOR) (fuel : Nat) : Option Int :=
  (botSearchLegalMoves b opp my fuel).bind fun om =>
    (botSearchLegalMoves b my opp fuel).map fun mm =>
      cellScoreAmended b my opp + ((if om = [] then 100 else 0) + (if mm = [] then -100 else 0))

/-! ## Well-formedness and concrete fixtures -/

/-- An 8x8 board, as `Game.__init__` constructs and every operation keeps. -/
def WFb (b : Board) : Prop := b.length = 8 ∧ ∀ row ∈ b, row.length = 8

instance (b : Board) : Decidable (WFb b) := by unfold WFb; infer_instance

/-- A row of 8 untouched cells. -/
def rowU : List COLOR := List.replicate 8 COLOR.UNTOUCHED

/-- The all-untouched 8x8 board. -/
def emptyB : Board := List.replicate 8 rowU

/-- Fixture for claim C1: a run of two white pieces capped by black, with the
legal black move at (0,0) capturing along direction (0,1). -/
def b1ex : Board :=
  [COLOR.UNTOUCHED, COLOR.WHITE, COLOR.WHITE, COLOR.BLACK,
   COLOR.UNTOUCHED, COLOR.UNTOUCHED, COLOR.UNTOUCHED, COLOR.UNTOUCHED] ::
  List.replicate 7 rowU

/-- Fixture for claim C2: white at (7,5) and (7,6), black at (7,7); black to
move has the legal move (7,4) in direction (0,1), and no empty cell has an
opponent piece at its upper-left diagonal neighbour, so the bot's scan
terminates. -/
def b2ex : Board :=
  List.replicate 7 rowU ++
  [[COLOR.UNTOUCHED, COLOR.UNTOUCHED, COLOR.UNTOUCHED, COLOR.UNTOUCHED,
    COLOR.UNTOUCHED, COLOR.WHITE, COLOR.WHITE, COLOR.BLACK]]

/-- Fixture for claim C3: a single white piece at (3,3); scanning the empty
cell (4,4) for black, the first direction (-1,-1) immediately sees white. -/
def b3ex : Board :=
  List.replicate 3 rowU ++
  ([COLOR.UNTOUCHED, COLOR.UNTOUCHED, COLOR.UNTOUCHED, COLOR.WHITE,
    COLOR.UNTOUCHED, COLOR.UNTOUCHED, COLOR.UNTOUCHED, COLOR.UNTOUCHED] ::
   List.replicate 4 rowU)

/-- Fixture for claim C6: black pieces on the main diagonal from (1,1) to
(7,7).  Every piece has its lower-right diagonal neighbour occupied or off
the board, so the bot's legal-move scans terminate on this board. -/
def b6ex : Board :=
  [rowU,
   [COLOR.UNTOUCHED, COLOR.BLACK, COLOR.UNTOUCHED, COLOR.UNTOUCHED,
    COLOR.UNTOUCHED, COLOR.UNTOUCHED, COLOR.UNTOUCHED, COLOR.UNTOUCHED],
   [COLOR.UNTOUCHED, COLOR.UNTOUCHED, COLOR.BLACK, COLOR.UNTOUCHED,
    COLOR.UNTOUCHED, COLOR.UNTOUCHED, COLOR.UNTOUCHED, COLOR.UNTOUCHED],
   [COLOR.UNTOUCHED, COLOR.UNTOUCHED, COLOR.UNTOUCHED, COLOR.BLACK,
    COLOR.UNTOUCHED, COLOR.UNTOUCHED, COLOR.UNTOUCHED, COLOR.UNTOUCHED],
   [COLOR.UNTOUCHED, COLOR.UNTOUCHED, COLOR.UNTOUCHED, COLOR.UNTOUCHED,
    COLOR.BLACK, COLOR.UNTOUCHED, COLOR.UNTOUCHED, COLOR.UNTOUCHED],
   [COLOR.UNTOUCHED, COLOR.UNTOUCHED, COLOR.UNTOUCHED, COLOR.UNTOUCHED,
    COLOR.UNTOUCHED, COLOR.BLACK, COLOR.UNTOUCHED, COLOR.UNTOUCHED],
   [COLOR.UNTOUCHED, COLOR.UNTOUCHED, COLOR.UNTOUCHED, COLOR.UNTOUCHED,
    COLOR.UNTOUCHED, COLOR.UNTOUCHED, COLOR.BLACK, COLOR.UNTOUCHED],
   [COLOR.UNTOUCHED, COLOR.UNTOUCHED, COLOR.UNTOUCHED, COLOR.UNTOUCHED,
    COLOR.UNTOUCHED, COLOR.UNTOUCHED, COLOR.UNTOUCHED, COLOR.BLACK]]

/-- A freshly started game: `Game().start()` with the shuffle outcome that
puts white on the (3,3)-(4,4) diagonal (the standard Reversi opening). -/
def g0ex : Game := startG Game.mk0 true false

/-- The shortest wipe-out game of Reversi, in (row, col) coordinates:
e6 f4 e3 f6 g5 d6 e7 f5 c5.  After the ninth move every white piece is gone. -/
def wipeoutMoves : List (Int × Int) :=
  [(5, 4), (3, 5), (2, 4), (5, 5), (4, 6), (5, 3), (6, 4), (4, 5), (4, 2)]

/-- The game reached by playing the wipe-out sequence from `g0ex`. -/
def traceC4 : Option Game :=
  wipeoutMoves.foldl (fun og mv => og.bind fun g => moveG g mv.1 mv.2) (some g0ex)

/-- The concrete stale-map game state at the end of the wipe-out sequence:
running-white, with the 7-entry legal-move map computed for black before the
final move still installed. -/
def gStale : Game := traceC4.getD Game.mk0

/-! ## General facts about the bot's per-direction walk -/

/-- The loop state of `botWalk` never changes its `(r, c)` component: if the
loop condition holds at the reset point `(row + d, col + d)`, the loop never
exits, whatever the fuel. -/
theorem botWalk_none (b : Board) (opp : COLOR) (row col : Int) (d : Int × Int)
    (h : 0 ≤ row + d.1 ∧ row + d.1 < (b.length : Int) ∧ 0 ≤ col + d.2 ∧
         col + d.2 < (rowLen b : Int) ∧ cellI b (row + d.1) (col + d.2) = opp) :
    ∀ fuel k, botWalk b opp row col d fuel (row + d.1, col + d.2, k) = none := by
  intro fuel
  induction fuel with
  | zero => intro k; rfl
  | succ n ih => intro k; rw [botWalk, if_pos h]; exact ih (k + 1)

/-- If the loop condition fails at the entry state, `botWalk` exits at once
with the unchanged state (any positive fuel). -/
theorem botWalk_exit (b : Board) (opp : COLOR) (row col r c : Int) (d : Int × Int) (k fuel : Nat)
    (h : ¬(0 ≤ r ∧ r < (b.length : Int) ∧ 0 ≤ c ∧ c < (rowLen b : Int) ∧ cellI b r c = opp)) :
    botWalk b opp row col d (fuel + 1) (r, c, k) = some (r, c, k) := by
  rw [botWalk, if_neg h]

/-- Whenever `botWalk` terminates from the reset point (every call starts
there), it returns that state unchanged - in particular a step count of 0 -
and the loop condition is false there. -/
theorem botWalk_some (b : Board) (opp : COLOR) (row col : Int) (d : Int × Int) :
    ∀ fuel k out, botWalk b opp row col d fuel (row + d.1, col + d.2, k) = some out →
      out = (row + d.1, col + d.2, k) ∧
      ¬(0 ≤ row + d.1 ∧ row + d.1 < (b.length : Int) ∧ 0 ≤ col + d.2 ∧
        col + d.2 < (rowLen b : Int) ∧ cellI b (row + d.1) (col + d.2) = opp) := by
  intro fuel
  induction fuel with
  | zero => intro k out h; exact absurd h (by simp [botWalk])
  | succ n ih =>
    intro k out h
    rw [botWalk] at h
    by_cases hc : 0 ≤ row + d.1 ∧ row + d.1 < (b.length : Int) ∧ 0 ≤ col + d.2 ∧
        col + d.2 < (rowLen b : Int) ∧ cellI b (row + d.1) (col + d.2) = opp
    · rw [if_pos hc] at h
      exact absurd hc (ih (k + 1) out h).2
    · rw [if_neg hc] at h
      exact ⟨(Option.some_inj.mp h).symm, hc⟩


/-- Whenever the bot's direction scan terminates, it reports no legal
direction: a positive crossing count would require the non-advancing walk to
keep running forever. -/
theorem botSearchDirs_some (b : Board) (my opp : COLOR) (row col : Nat) (fuel : Nat)
    (ds : List (Int × Int)) (h : botSearchDirs b my opp row col fuel = some ds) :
    ds = [] := by
  rw [botSearchDirs] at h
  simp only [DIRECTIONS, Option.map_eq_some'] at h
  obtain ⟨res, hw, hds⟩ := h
  obtain ⟨hres, -⟩ := botWalk_some b opp (row : Int) (col : Int) (-1, -1) fuel 0 res hw
  subst hres
  simpa using hds.symm

/-- Whenever the bot's cell scan terminates, the legal-move map is empty. -/
theorem botSearchCells_some (b : Board) (my opp : COLOR) (fuel : Nat) :
    ∀ cells l, botSearchCells b my opp fuel cells = some l → l = [] := by
  intro cells
  induction cells with
  | nil => intro l h; simpa [botSearchCells] using h.symm
  | cons rc rest ih =>
    intro l h
    obtain ⟨row, col⟩ := rc
    rw [botSearchCells] at h
    by_cases hu : cellN b row col = COLOR.UNTOUCHED
    · rw [if_pos hu] at h
      rw [Option.bind_eq_some] at h
      obtain ⟨ds, hds, h⟩ := h
      rw [Option.map_eq_some'] at h
      obtain ⟨tail, htail, hl⟩ := h
      rw [botSearchDirs_some b my opp row col fuel ds hds] at hl
      simpa [ih tail htail] using hl.symm
    · rw [if_neg hu] at h
      exact ih l h

/-- Whenever `ReversiBot._search_legal_moves` terminates, it returns the
empty map, whatever the board, mover and fuel. -/
theorem botSearchLegalMoves_some (b : Board) (my opp : COLOR) (fuel : Nat)
    (l : List ((Nat × Nat) × List (Int × Int)))
    (h : botSearchLegalMoves b my opp fuel = some l) : l = [] :=
  botSearchCells_some b my opp fuel (cellsOf b) l h

/-- Claim C3 counterexample: on the board with a single white piece at (3,3),
scanning the empty cell (4,4) for black, the bot's per-direction walk in the
first direction (-1,-1) runs forever - it never exits, whatever fuel it is
given - and so does the direction scan for that cell.  The loop body resets
`(r, c)` to `(row + d[0], col + d[1])` instead of advancing. -/
theorem C3_counterexample :
    (∀ fuel k, botWalk b3ex COLOR.WHITE 4 4 (-1, -1) fuel (3, 3, k) = none) ∧
    (∀ fuel, botSearchDirs b3ex COLOR.BLACK COLOR.WHITE 4 4 fuel = none) := by
  have hw : ∀ fuel k, botWalk b3ex COLOR.WHITE 4 4 (-1, -1) fuel (3, 3, k) = none := by
    intro fuel k
    have h := botWalk_none b3ex COLOR.WHITE 4 4 (-1, -1) (by decide) fuel k
    norm_num at h
    exact h
  refine ⟨hw, fun fuel => ?_⟩
  rw [botSearchDirs]
  simp only [DIRECTIONS]
  norm_num [hw fuel 0]

/-- Claim C1 counterexample: on `b1ex` the Game Engine records exactly the
direction (0,1) for the legal black move (0,0); applying the move flips both
white pieces (src/game.py lines 97-103), while the Search Engine's
reimplementation inside `_negamax` (src/bot.py lines 61-67) flips only the
first one, so the two resulting boards differ. -/
theorem C1_counterexample :
    searchDirsGame b1ex COLOR.BLACK COLOR.WHITE 0 0 = [(0, 1)] ∧
    (pySet b1ex 0 0 COLOR.BLACK).bind
        (flipAllG COLOR.BLACK COLOR.WHITE 0 0 [(0, 1)]) =
      some ([COLOR.BLACK, COLOR.BLACK, COLOR.BLACK, COLOR.BLACK,
             COLOR.UNTOUCHED, COLOR.UNTOUCHED, COLOR.UNTOUCHED, COLOR.UNTOUCHED] ::
            List.replicate 7 rowU) ∧
    botApplyMove b1ex COLOR.BLACK COLOR.WHITE 0 0 [(0, 1)] =
      some ([COLOR.BLACK, COLOR.BLACK, COLOR.WHITE, COLOR.BLACK,
             COLOR.UNTOUCHED, COLOR.UNTOUCHED, COLOR.UNTOUCHED, COLOR.UNTOUCHED] ::
            List.replicate 7 rowU) ∧
    (pySet b1ex 0 0 COLOR.BLACK).bind
        (flipAllG COLOR.BLACK COLOR.WHITE 0 0 [(0, 1)]) ≠
      botApplyMove b1ex COLOR.BLACK COLOR.WHITE 0 0 [(0, 1)] := by
  refine ⟨by decide, by decide, by decide, by decide⟩

/-- Claim C2 counterexample: on `b2ex`, with black to move, the bot's
legal-move scan terminates and reports no legal move at all, while the Game
Engine's scan of the same board finds the legal move (7,4) with direction
(0,1).  The `return d_list` of src/bot.py line 95 sits inside the direction
loop, so only direction (-1,-1) is ever tested, and a crossing along it
would not terminate anyway. -/
theorem C2_counterexample :
    botSearchLegalMoves b2ex COLOR.BLACK COLOR.WHITE 16 = some [] ∧
    searchLegalMovesGame b2ex COLOR.BLACK COLOR.WHITE = [((7, 4), [(0, 1)])] := by
  refine ⟨by decide, by decide⟩

/-- Claim C7 counterexample: `move` called in the initializing state (before
`start`) does not fail - the `KeyError` branch catches the lookup in the
empty map and returns normally with the game unchanged - and `start` called
on an already-running game performs no state check and completes normally,
leaving a running state again. -/
theorem C7_counterexample :
    moveG Game.mk0 0 0 = some Game.mk0 ∧
    (startG g0ex true true).state = GAMESTATE.RUNNING_BLACK := by
  refine ⟨rfl, rfl⟩

/-- Claim C7 amended: only `ReversiBot.analyze` checks its precondition
(failing its assert when the game is not running or depth is not positive);
`Game.move` outside a running state takes the caught-`KeyError` branch and
returns normally, unchanged, whenever the cell is not a key of the stored
map; and `Game.start` performs no state check at all - called in any state
it completes and leaves the running state selected by `black_first`. -/
theorem C7_amended :
    (∀ (g : Game) (d : Int) (fuel : Nat),
        ¬(g.state.is_running = true ∧ 0 < d) → analyzeE g d fuel = none) ∧
    (∀ (g : Game) (r c : Int), findMove g.legal_moves r c = none → moveG g r c = some g) ∧
    (∀ (g : Game) (bf coin : Bool),
        (startG g bf coin).state =
          (if bf then GAMESTATE.RUNNING_BLACK else GAMESTATE.RUNNING_WHITE)) := by
  refine ⟨fun g d fuel h => ?_, fun g r c h => ?_, fun g bf coin => ?_⟩
  · rw [analyzeE, if_neg h]
  · rw [moveG, h]
  · cases bf <;> simp [startG, setState]

/-- Claim C7 amended, witnessed at concrete inputs. -/
theorem C7_amended_w :
    analyzeE Game.mk0 0 5 = none ∧
    moveG Game.mk0 1 1 = some Game.mk0 ∧
    (startG Game.mk0 true true).state = GAMESTATE.RUNNING_BLACK :=
  ⟨C7_amended.1 Game.mk0 0 5 (by decide), C7_amended.2.1 Game.mk0 1 1 (by decide),
   C7_amended.2.2 Game.mk0 true true⟩

/-- Claim C8: in any running game, a requested cell that is not a key of the
current legal-move map makes `move` take the caught-`KeyError` branch: the
returned game is the very same record, so board, counts, state and map are
all unchanged. -/
theorem C8_illegal_move_noop (g : Game) (row col : Int)
    (_hrun : g.state.is_running = true)
    (hkey : findMove g.legal_moves row col = none) :
    moveG g row col = some g := by
  rw [moveG, hkey]

/-- Claim C8, witnessed on a freshly started game and the non-legal cell
(0,0). -/
theorem C8_illegal_move_noop_w : moveG g0ex 0 0 = some g0ex :=
  C8_illegal_move_noop g0ex 0 0 (by decide) (by decide)

/-- Claim C4 counterexample: playing the shortest wipe-out game from
`start()` (nine successful legal moves, after which white has no piece
left), the engine is left in state RUNNING_WHITE even though white - the
side named by the state - has no legal move on the current board (nor does
black), the stored legal-move map is the stale 7-entry map computed for
black before the ninth move, and the no-move counter is 1, so the running
state persists.  `_switch_side` (src/game.py lines 57-74) never hands the
turn back to a side that can move and never installs the stuck side's
(empty) map. -/
theorem C4_counterexample :
    traceC4.map (fun g =>
        (g.state, searchLegalMovesGame g.board COLOR.WHITE COLOR.BLACK,
         g.legal_moves.length, g.no_move_round)) =
      some (GAMESTATE.RUNNING_WHITE, [], 7, 1) := by
  rfl

/-- Claim C5: for every board, colors, positive depth, any window and either
perspective, the alpha-beta-pruned negamax computes exactly the same result
(move and score) as the un-pruned full minimax over the same tree, for every
recursion fuel.  With this source the equality is degenerate: the bot's own
move generator never reports a legal move when it terminates (see
`botSearchLegalMoves_some`), so both searches bottom out identically before
any pruning decision can be taken, and diverge on the same inputs. -/
theorem C5_pruned_eq_unpruned (my opp : COLOR) (fuel : Nat) (b : Board) (depth : Nat)
    (alpha beta : Int) (im : Bool) (_hd : 0 < depth) :
    negamaxE my opp fuel b depth alpha beta im = minimaxFullE my opp fuel b depth im := by
  cases fuel with
  | zero => rfl
  | succ f =>
    simp only [negamaxE, minimaxFullE]
    by_cases hd0 : depth = 0
    · simp [hd0]
    · simp only [hd0, if_false]
      cases hlm : botSearchLegalMoves b (if im then my else opp) (if im then opp else my)
          (f + 1) with
      | none => simp [hlm]
      | some lm =>
        have hl : lm = [] := botSearchLegalMoves_some _ _ _ _ _ hlm
        subst hl
        cases holm : botSearchLegalMoves b (if im then opp else my) (if im then my else opp)
            (f + 1) with
        | none => simp [hlm, holm]
        | some olm =>
          have ho : olm = [] := botSearchLegalMoves_some _ _ _ _ _ holm
          subst ho
          simp [hlm, holm]

/-- Claim C5, witnessed at the root call of `analyze` (full window, depth 1)
on the all-untouched board. -/
theorem C5_pruned_eq_unpruned_w :
    negamaxE COLOR.BLACK COLOR.WHITE 2 emptyB 1 (-INF) INF true =
      minimaxFullE COLOR.BLACK COLOR.WHITE 2 emptyB 1 true :=
  C5_pruned_eq_unpruned COLOR.BLACK COLOR.WHITE 2 emptyB 1 (-INF) INF true Nat.one_pos

/-! ## The evaluator's cell score as a sum -/

/-- A left fold whose step adds a per-element term is the initial value plus
the sum of the terms. -/
theorem foldl_step_sum (step : Int → Nat → Int) (t : Nat → Int)
    (hstep : ∀ a x, step a x = a + t x) :
    ∀ (l : List Nat) (a : Int), l.foldl step a = a + (l.map t).sum := by
  intro l
  induction l with
  | nil => intro a; simp
  | cons x xs ih => intro a; simp [List.foldl, hstep, ih, add_assoc]

/-- The double loop of `_evaluate` computes the double sum of the signed
weights. -/
theorem cellScoreE_eq_sum (b : Board) (my opp : COLOR) :
    cellScoreE b my opp =
      ((List.range b.length).map fun row =>
        ((List.range b.length).map fun col =>
          if cellN b row col = my then weightsCode b.length row col
          else if cellN b row col = opp then -weightsCode b.length row col
          else 0).sum).sum := by
  rw [cellScoreE]
  rw [foldl_step_sum _ (fun row => ((List.range b.length).map fun col =>
      if cellN b row col = my then weightsCode b.length row col
      else if cellN b row col = opp then -weightsCode b.length row col
      else 0).sum)]
  · rw [zero_add]
  · intro a row
    rw [foldl_step_sum _ (fun col =>
        if cellN b row col = my then weightsCode b.length row col
        else if cellN b row col = opp then -weightsCode b.length row col
        else 0)]
    intro a2 col
    split_ifs <;> ring

/-- On the 8x8 board the tabulated source weights agree with the flat
amended description, cell by cell. -/
theorem weightsCode_eq_amended : ∀ row < 8, ∀ col < 8,
    weightsCode 8 row col = weightsAmendedN row col := by decide

/-- The code's cell score equals the amended cell score on 8x8 boards. -/
theorem cellScore_eq_amended (b : Board) (my opp : COLOR) (hlen : b.length = 8) :
    cellScoreE b my opp = cellScoreAmended b my opp := by
  rw [cellScoreE_eq_sum, cellScoreAmended, hlen]
  apply congrArg
  apply List.map_congr_left
  intro row hrow
  apply congrArg
  apply List.map_congr_left
  intro col hcol
  rw [List.mem_range] at hrow hcol
  rw [cellTermAmended, weightsCode_eq_amended row hrow col hcol]

/-- Claim C6 counterexample: on the diagonal board `b6ex` (self = black) the
source evaluation is 106 - the seven diagonal pieces score the interior
weight 1 each (the interior branch of the chain fires before the "around the
corner" branch) plus 100 for the corner, and the freedom bonuses cancel -
while the formula of claim C6 predicts 84, since it gives the border rule
precedence over the interior rule and so scores (1,1) and (6,6) at -10. -/
theorem C6_counterexample :
    evaluateE b6ex COLOR.BLACK COLOR.WHITE 16 = some 106 ∧
    evalClaimC6 b6ex COLOR.BLACK COLOR.WHITE = 84 ∧
    evaluateE b6ex COLOR.BLACK COLOR.WHITE 16 ≠
      some (evalClaimC6 b6ex COLOR.BLACK COLOR.WHITE) := by
  refine ⟨by decide, by decide, by decide⟩

/-- Claim C6 amended: on every 8x8 board the static evaluation is the cell
score under the weight grid the chain actually encodes - corners 100, every
cell off the outer edge 1 (the interior branch fires first, so the diagonal
corner neighbours score 1, not -10), edge cells orthogonally adjacent to a
corner -10, other edge cells 10 - plus the freedom bonuses (+100 when the
bot's own scan reports no opponent move, -100 when it reports no own move,
independently). -/
theorem C6_amended (b : Board) (my opp : COLOR) (fuel : Nat) (hwf : WFb b) :
    evaluateE b my opp fuel = evalAmended b my opp fuel := by
  rw [evaluateE, evalAmended, cellScore_eq_amended b my opp hwf.1]

/-- Claim C6 amended, witnessed on the diagonal fixture board. -/
theorem C6_amended_w :
    evaluateE b6ex COLOR.BLACK COLOR.WHITE 16 = evalAmended b6ex COLOR.BLACK COLOR.WHITE 16 :=
  C6_amended b6ex COLOR.BLACK COLOR.WHITE 16 (by decide)

/-- Negation distributes over a list sum, elementwise. -/
theorem neg_sum (l : List Int) : -l.sum = (l.map fun x => -x).sum := by
  induction l with
  | nil => simp
  | cons x xs ih => simp [ih]; ring

/-- One cell's signed weight flips sign when the two colors swap roles. -/
theorem term_swap (w : Int) (c my opp : COLOR) (h : my ≠ opp) :
    (if c = my then w else if c = opp then -w else 0) =
    -(if c = opp then w else if c = my then -w else 0) := by
  by_cases h1 : c = my
  · subst h1; simp [h]
  · by_cases h2 : c = opp
    · subst h2; simp [h1]
    · simp [h1, h2]

/-- The cell score is antisymmetric in the two colors. -/
theorem cellScoreE_swap (b : Board) (my opp : COLOR) (h : my ≠ opp) :
    cellScoreE b my opp = -cellScoreE b opp my := by
  rw [cellScoreE_eq_sum, cellScoreE_eq_sum, neg_sum, List.map_map]
  apply congrArg List.sum
  apply List.map_congr_left
  intro row _
  show _ = -(((List.range b.length).map _).sum)
  rw [neg_sum, List.map_map]
  apply congrArg List.sum
  apply List.map_congr_left
  intro col _
  exact term_swap _ _ _ _ h

/-- Claim C9: for every board and every fuel, the static evaluation from
black's perspective is the negation of the evaluation from white's
perspective, and vice versa (at depth 0 the negamax leaf returns exactly
this evaluation).  The two freedom searches are the same two scans in
swapped order, so either both evaluations terminate or neither does. -/
theorem C9_eval_symmetry (b : Board) (fuel : Nat) :
    evaluateE b COLOR.BLACK COLOR.WHITE fuel =
      (evaluateE b COLOR.WHITE COLOR.BLACK fuel).map (fun v => -v) ∧
    evaluateE b COLOR.WHITE COLOR.BLACK fuel =
      (evaluateE b COLOR.BLACK COLOR.WHITE fuel).map (fun v => -v) := by
  have key : ∀ x y : COLOR, x ≠ y →
      evaluateE b x y fuel = (evaluateE b y x fuel).map (fun v => -v) := by
    intro x y hxy
    rw [evaluateE, evaluateE]
    cases h1 : botSearchLegalMoves b y x fuel with
    | none =>
      cases h2 : botSearchLegalMoves b x y fuel with
      | none => rfl
      | some mm => simp
    | some om =>
      cases h2 : botSearchLegalMoves b x y fuel with
      | none => rfl
      | some mm =>
        simp only [Option.some_bind, Option.map_some']
        rw [cellScoreE_swap b x y hxy]
        refine congrArg some ?_
        by_cases hom : om = [] <;> by_cases hmm : mm = [] <;> simp [hom, hmm] <;> ring
  exact ⟨key _ _ (by decide), key _ _ (by decide)⟩

/-! ## Board access under the 8x8 well-formedness invariant -/

/-- A non-negative in-range index resolves without wrap-around. -/
theorem pyIdx_of_lt (len : Nat) (i : Int) (h0 : 0 ≤ i) (hl : i < (len : Int)) :
    pyIdx len i = some i.toNat := by
  rw [pyIdx, if_pos h0, if_pos hl]

/-- Every row of a well-formed board has length 8. -/
theorem WFb_row (b : Board) (hwf : WFb b) (r : Nat) (hr : r < 8) :
    (b.getD r []).length = 8 := by
  have hlt : r < b.length := by rw [hwf.1]; exact hr
  rw [List.getD_eq_getElem b [] hlt]
  exact hwf.2 _ (List.getElem_mem hlt)

/-- On a well-formed board an in-bounds read succeeds and returns the cell. -/
theorem pyGet_inb (b : Board) (hwf : WFb b) (r c : Int) (h : inb r c) :
    pyGet b r c = some (cellI b r c) := by
  obtain ⟨h1, h2, h3, h4⟩ := h
  rw [pyGet, pyIdx_of_lt b.length r h1 (by rw [hwf.1]; exact_mod_cast h2)]
  rw [Option.some_bind]
  have hrt : r.toNat < 8 := by omega
  rw [pyIdx_of_lt _ c h3 (by rw [WFb_row b hwf r.toNat hrt]; exact_mod_cast h4)]
  rfl

/-- On a well-formed board an in-bounds write succeeds and is `setCell`. -/
theorem pySet_inb (b : Board) (hwf : WFb b) (r c : Int) (v : COLOR) (h : inb r c) :
    pySet b r c v = some (setCell b r.toNat c.toNat v) := by
  obtain ⟨h1, h2, h3, h4⟩ := h
  rw [pySet, pyIdx_of_lt b.length r h1 (by rw [hwf.1]; exact_mod_cast h2)]
  rw [Option.some_bind]
  have hrt : r.toNat < 8 := by omega
  rw [pyIdx_of_lt _ c h3 (by rw [WFb_row b hwf r.toNat hrt]; exact_mod_cast h4)]
  rfl

/-- `setCell` keeps the board well-formed. -/
theorem WFb_setCell (b : Board) (hwf : WFb b) (r c : Nat) (hr : r < 8) (v : COLOR) :
    WFb (setCell b r c v) := by
  refine ⟨by rw [setCell, List.length_set]; exact hwf.1, ?_⟩
  intro rowl hmem
  rcases List.mem_or_eq_of_mem_set hmem with h | h
  · exact hwf.2 _ h
  · rw [h, List.length_set]
    exact WFb_row b hwf r hr

/-- Reading the cell just written. -/
theorem cellN_setCell_self (b : Board) (hwf : WFb b) (r c : Nat) (hr : r < 8) (hc : c < 8)
    (v : COLOR) : cellN (setCell b r c v) r c = v := by
  have hrb : r < b.length := by rw [hwf.1]; exact hr
  have hrow : (b.getD r []).length = 8 := WFb_row b hwf r hr
  simp only [cellN, setCell, List.getD_eq_getElem?_getD]
  rw [List.getElem?_set_self hrb, Option.getD_some]
  rw [List.getElem?_set_self (by rw [List.getD_eq_getElem?_getD] at hrow; rw [hrow]; exact hc)]
  rfl

/-- Reading any other cell after a write. -/
theorem cellN_setCell_ne (b : Board) (r c r2 c2 : Nat) (v : COLOR)
    (h : ¬(r2 = r ∧ c2 = c)) :
    cellN (setCell b r c v) r2 c2 = cellN b r2 c2 := by
  by_cases hr : r2 = r
  · subst hr
    have hc : c2 ≠ c := fun hcc => h ⟨rfl, hcc⟩
    simp only [cellN, setCell, List.getD_eq_getElem?_getD]
    by_cases hlt : r2 < b.length
    · rw [List.getElem?_set_self hlt, Option.getD_some]
      rw [List.getElem?_set_ne (fun hcc => hc hcc.symm)]
    · have h1 : (List.set b r2 ((b[r2]?.getD []).set c v))[r2]? = none :=
        List.getElem?_eq_none (by rw [List.length_set]; omega)
      have h2 : b[r2]? = none := List.getElem?_eq_none (by omega)
      rw [h1, h2]
  · simp only [cellN, setCell, List.getD_eq_getElem?_getD]
    rw [List.getElem?_set_ne (fun hrr => hr hrr.symm)]

/-- `cellI` after an in-bounds write at a different in-bounds position. -/
theorem cellI_setCell_ne (b : Board) (r c r2 c2 : Int) (hin : inb r c) (hin2 : inb r2 c2)
    (hne : ¬(r2 = r ∧ c2 = c)) (v : COLOR) :
    cellI (setCell b r.toNat c.toNat v) r2 c2 = cellI b r2 c2 := by
  obtain ⟨p1, p2, p3, p4⟩ := hin
  obtain ⟨q1, q2, q3, q4⟩ := hin2
  rw [cellI, cellI]
  apply cellN_setCell_ne
  rintro ⟨ha, hb⟩
  exact hne ⟨by omega, by omega⟩

/-! ## The Game Engine's legality walk: characterization and geometry -/

/-- Characterization of the legality walk: it advances `n` steps over
in-bounds opponent cells, and either exhausts the fuel or exits because the
condition fails at step `n`. -/
theorem walkG_spec (b : Board) (opp : COLOR) (d : Int × Int) :
    ∀ (fuel : Nat) (r c : Int) (k : Nat), ∃ n : Nat,
      walkG b opp d fuel r c k = (r + n * d.1, c + n * d.2, k + n) ∧
      (∀ i : Nat, i < n → inb (r + i * d.1) (c + i * d.2) ∧
        cellI b (r + i * d.1) (c + i * d.2) = opp) ∧
      (n = fuel ∨ ¬(inb (r + n * d.1) (c + n * d.2) ∧
        cellI b (r + n * d.1) (c + n * d.2) = opp)) := by
  intro fuel
  induction fuel with
  | zero =>
    intro r c k
    exact ⟨0, by simp [walkG], fun i hi => absurd hi (Nat.not_lt_zero i), Or.inl rfl⟩
  | succ f ih =>
    intro r c k
    by_cases hc : inb r c ∧ cellI b r c = opp
    · obtain ⟨n, h1, h2, h3⟩ := ih (r + d.1) (c + d.2) (k + 1)
      refine ⟨n + 1, ?_, ?_, ?_⟩
      · rw [walkG, if_pos hc, h1]
        simp only [Prod.mk.injEq]
        refine ⟨by push_cast; ring, by push_cast; ring, by omega⟩
      · intro i hi
        cases i with
        | zero => simpa using hc
        | succ j =>
          have hj : j < n := by omega
          rw [show r + ((j + 1 : Nat) : Int) * d.1 = r + d.1 + (j : Int) * d.1 by push_cast; ring,
            show c + ((j + 1 : Nat) : Int) * d.2 = c + d.2 + (j : Int) * d.2 by push_cast; ring]
          exact h2 j hj
      · rcases h3 with h3 | h3
        · exact Or.inl (by omega)
        · refine Or.inr ?_
          rw [show r + ((n + 1 : Nat) : Int) * d.1 = r + d.1 + (n : Int) * d.1 by push_cast; ring,
            show c + ((n + 1 : Nat) : Int) * d.2 = c + d.2 + (n : Int) * d.2 by push_cast; ring]
          exact h3
    · refine ⟨0, ?_, fun i hi => absurd hi (Nat.not_lt_zero i), Or.inr (by simpa using hc)⟩
      rw [walkG, if_neg hc]
      simp

/-- A ray of in-bounds positions along a compass direction has at most 8
points: one coordinate moves by 1 or -1 at every step inside `[0, 8)`. -/
theorem ray_bound (d : Int × Int) (hd : d ∈ DIRECTIONS) (r c : Int) (n : Nat)
    (h : ∀ i : Nat, i < n → inb (r + i * d.1) (c + i * d.2)) : n ≤ 8 := by
  by_contra hn
  push_neg at hn
  have h0 := h 0 (by omega)
  have h8 := h 8 (by omega)
  rw [inb] at h0 h8
  simp only [DIRECTIONS, List.mem_cons, List.not_mem_nil, or_false] at hd
  rcases hd with rfl | rfl | rfl | rfl | rfl | rfl | rfl | rfl <;>
    · norm_num at h0 h8
      omega

/-- Steps along one compass direction are injective. -/
theorem dir_step_inj (d : Int × Int) (hd : d ∈ DIRECTIONS) (x y : Int)
    (h1 : x * d.1 = y * d.1) (h2 : x * d.2 = y * d.2) : x = y := by
  simp only [DIRECTIONS, List.mem_cons, List.not_mem_nil, or_false] at hd
  rcases hd with rfl | rfl | rfl | rfl | rfl | rfl | rfl | rfl <;>
    · norm_num at h1 h2
      omega

/-- Rays in two different compass directions from the same origin share no
point of positive index. -/
theorem rays_disjoint (d e : Int × Int) (hd : d ∈ DIRECTIONS) (he : e ∈ DIRECTIONS)
    (hne : d ≠ e) (i j : Nat) (hi : 0 < i) (hj : 0 < j)
    (h1 : (i : Int) * d.1 = (j : Int) * e.1) (h2 : (i : Int) * d.2 = (j : Int) * e.2) :
    False := by
  simp only [DIRECTIONS, List.mem_cons, List.not_mem_nil, or_false] at hd he
  rcases hd with rfl | rfl | rfl | rfl | rfl | rfl | rfl | rfl <;>
    rcases he with rfl | rfl | rfl | rfl | rfl | rfl | rfl | rfl <;>
    · first
      | exact hne rfl
      | (norm_num at h1 h2; omega)

/-- The recorded directions of one cell are pairwise distinct. -/
theorem searchDirs_nodup (b : Board) (my opp : COLOR) (row col : Nat) :
    (searchDirsGame b my opp row col).Nodup :=
  List.Nodup.filter _ (by decide)

/-- What membership in `searchDirsGame` means: there is a non-empty run of
`n ≤ 8` contiguous in-bounds opponent cells at offsets 1..n from the cell
along `d`, and the cell at offset n+1 is in bounds and holds the mover's
color - which also forces the two colors to differ. -/
theorem searchDirs_sound (b : Board) (my opp : COLOR) (row col : Nat) (d : Int × Int)
    (hmem : d ∈ searchDirsGame b my opp row col) :
    d ∈ DIRECTIONS ∧ my ≠ opp ∧ ∃ n : Nat, 0 < n ∧ n ≤ 8 ∧
      (∀ j : Nat, 0 < j → j ≤ n → inb ((row : Int) + j * d.1) ((col : Int) + j * d.2) ∧
        cellI b ((row : Int) + j * d.1) ((col : Int) + j * d.2) = opp) ∧
      inb ((row : Int) + ((n : Int) + 1) * d.1) ((col : Int) + ((n : Int) + 1) * d.2) ∧
      cellI b ((row : Int) + ((n : Int) + 1) * d.1) ((col : Int) + ((n : Int) + 1) * d.2) = my := by
  rw [searchDirsGame, List.mem_filter] at hmem
  obtain ⟨hdir, hcond⟩ := hmem
  simp only [decide_eq_true_eq] at hcond
  obtain ⟨n, hw, hsteps, hexit⟩ := walkG_spec b opp d 16 ((row : Int) + d.1) ((col : Int) + d.2) 0
  rw [hw] at hcond
  simp only [Nat.zero_add] at hcond
  obtain ⟨hn, hinb, hmy⟩ := hcond
  have hn' : 0 < n := by omega
  have hn8 : n ≤ 8 := ray_bound d hdir _ _ n (fun i hi => (hsteps i hi).1)
  have hexit' : ¬(inb ((row : Int) + d.1 + n * d.1) ((col : Int) + d.2 + n * d.2) ∧
      cellI b ((row : Int) + d.1 + n * d.1) ((col : Int) + d.2 + n * d.2) = opp) := by
    rcases hexit with h | h
    · omega
    · exact h
  have hne : my ≠ opp := by
    intro heq
    exact hexit' ⟨hinb, heq ▸ hmy⟩
  refine ⟨hdir, hne, n, hn', hn8, ?_, ?_, ?_⟩
  · intro j hj0 hjn
    obtain ⟨i, rfl⟩ : ∃ i, j = i + 1 := ⟨j - 1, by omega⟩
    rw [show (row : Int) + ((i + 1 : Nat) : Int) * d.1 = (row : Int) + d.1 + (i : Int) * d.1 by
        push_cast; ring,
      show (col : Int) + ((i + 1 : Nat) : Int) * d.2 = (col : Int) + d.2 + (i : Int) * d.2 by
        push_cast; ring]
    exact hsteps i (by omega)
  · rw [show (row : Int) + ((n : Int) + 1) * d.1 = (row : Int) + d.1 + (n : Int) * d.1 by ring,
      show (col : Int) + ((n : Int) + 1) * d.2 = (col : Int) + d.2 + (n : Int) * d.2 by ring]
    exact hinb
  · rw [show (row : Int) + ((n : Int) + 1) * d.1 = (row : Int) + d.1 + (n : Int) * d.1 by ring,
      show (col : Int) + ((n : Int) + 1) * d.2 = (col : Int) + d.2 + (n : Int) * d.2 by ring]
    exact hmy

/-- The flip loop of `Game.move` succeeds on a well-formed board when, from
its start cell, `n` in-bounds opponent cells are followed by an in-bounds
cell of the mover's color: it flips exactly those `n` cells and stops,
leaving every other in-bounds cell unchanged. -/
theorem flipG_ok (my opp : COLOR) (d : Int × Int) (hd : d ∈ DIRECTIONS) (hmo : my ≠ opp) :
    ∀ (n fuel : Nat) (b : Board) (r c : Int), WFb b → n < fuel →
      (∀ i : Nat, i < n → inb (r + i * d.1) (c + i * d.2) ∧
        cellI b (r + i * d.1) (c + i * d.2) = opp) →
      inb (r + n * d.1) (c + n * d.2) →
      cellI b (r + n * d.1) (c + n * d.2) = my →
      ∃ b2, flipG my opp d fuel r c b = some b2 ∧ WFb b2 ∧
        (∀ r2 c2 : Int, inb r2 c2 →
          (∀ i : Nat, i < n → ¬(r2 = r + i * d.1 ∧ c2 = c + i * d.2)) →
          cellI b2 r2 c2 = cellI b r2 c2) := by
  intro n
  induction n with
  | zero =>
    intro fuel b r c hwf hfuel hsteps hinb hmy
    obtain ⟨f, rfl⟩ : ∃ f, fuel = f + 1 := ⟨fuel - 1, by omega⟩
    have hinb' : inb r c := by simpa using hinb
    have hmy' : cellI b r c = my := by simpa using hmy
    refine ⟨b, ?_, hwf, fun _ _ _ _ => rfl⟩
    rw [flipG, pyGet_inb b hwf r c hinb', hmy']
    simp [hmo]
  | succ m ih =>
    intro fuel b r c hwf hfuel hsteps hinb hmy
    obtain ⟨f, rfl⟩ : ∃ f, fuel = f + 1 := ⟨fuel - 1, by omega⟩
    have h0 : inb r c ∧ cellI b r c = opp := by simpa using hsteps 0 (by omega)
    set b1 := setCell b r.toNat c.toNat my with hb1
    have hwf1 : WFb b1 := WFb_setCell b hwf r.toNat c.toNat
      (by obtain ⟨q1, q2, q3, q4⟩ := h0.1; omega) my
    have hstep_ne : ∀ i : Nat, 0 < i → ¬(r + i * d.1 = r ∧ c + i * d.2 = c) := by
      rintro i hi ⟨e1, e2⟩
      have hz : (i : Int) = ((0 : Nat) : Int) :=
        dir_step_inj d hd i 0 (by linarith) (by linarith)
      omega
    have hsteps1 : ∀ i : Nat, i < m →
        inb (r + d.1 + i * d.1) (c + d.2 + i * d.2) ∧
        cellI b1 (r + d.1 + i * d.1) (c + d.2 + i * d.2) = opp := by
      intro i hi
      have h := hsteps (i + 1) (by omega)
      rw [show r + ((i + 1 : Nat) : Int) * d.1 = r + d.1 + (i : Int) * d.1 by push_cast; ring,
        show c + ((i + 1 : Nat) : Int) * d.2 = c + d.2 + (i : Int) * d.2 by push_cast; ring] at h
      refine ⟨h.1, ?_⟩
      rw [hb1, cellI_setCell_ne b r c _ _ h0.1 h.1 ?_ my]
      · exact h.2
      · rw [show r + d.1 + (i : Int) * d.1 = r + ((i + 1 : Nat) : Int) * d.1 by push_cast; ring,
          show c + d.2 + (i : Int) * d.2 = c + ((i + 1 : Nat) : Int) * d.2 by push_cast; ring]
        exact hstep_ne (i + 1) (by omega)
    have hinb1 : inb (r + d.1 + m * d.1) (c + d.2 + m * d.2) := by
      rw [show r + d.1 + (m : Int) * d.1 = r + ((m + 1 : Nat) : Int) * d.1 by push_cast; ring,
        show c + d.2 + (m : Int) * d.2 = c + ((m + 1 : Nat) : Int) * d.2 by push_cast; ring]
      exact hinb
    have hmy1 : cellI b1 (r + d.1 + m * d.1) (c + d.2 + m * d.2) = my := by
      rw [hb1, cellI_setCell_ne b r c _ _ h0.1 hinb1 ?_ my]
      · rw [show r + d.1 + (m : Int) * d.1 = r + ((m + 1 : Nat) : Int) * d.1 by push_cast; ring,
          show c + d.2 + (m : Int) * d.2 = c + ((m + 1 : Nat) : Int) * d.2 by push_cast; ring]
        exact hmy
      · rw [show r + d.1 + (m : Int) * d.1 = r + ((m + 1 : Nat) : Int) * d.1 by push_cast; ring,
          show c + d.2 + (m : Int) * d.2 = c + ((m + 1 : Nat) : Int) * d.2 by push_cast; ring]
        exact hstep_ne (m + 1) (by omega)
    obtain ⟨b2, hrun, hwf2, hframe⟩ := ih f b1 (r + d.1) (c + d.2) hwf1 (by omega) hsteps1 hinb1 hmy1
    refine ⟨b2, ?_, hwf2, ?_⟩
    · rw [flipG, pyGet_inb b hwf r c h0.1, h0.2, pySet_inb b hwf r c my h0.1]
      simpa using hrun
    · intro r2 c2 hin2 havoid
      have havoid1 : ∀ i : Nat, i < m → ¬(r2 = r + d.1 + i * d.1 ∧ c2 = c + d.2 + i * d.2) := by
        intro i hi
        rw [show r + d.1 + (i : Int) * d.1 = r + ((i + 1 : Nat) : Int) * d.1 by push_cast; ring,
          show c + d.2 + (i : Int) * d.2 = c + ((i + 1 : Nat) : Int) * d.2 by push_cast; ring]
        exact havoid (i + 1) (by omega)
      rw [hframe r2 c2 hin2 havoid1, hb1]
      rw [cellI_setCell_ne b r c r2 c2 h0.1 hin2 ?_ my]
      have h00 := havoid 0 (by omega)
      simpa using h00

/-- The full flip phase of `Game.move` succeeds: folding the per-direction
flip loops over any duplicate-free set of directions recorded by the
legality search for cell `(row, col)`, starting from any well-formed board
that still agrees with the searched board on every cell of the involved
rays, terminates with a well-formed board. -/
theorem flipAllG_ok (b : Board) (my opp : COLOR) (row col : Nat) :
    ∀ (ds : List (Int × Int)) (bcur : Board), ds.Nodup → WFb bcur →
      (∀ d ∈ ds, d ∈ searchDirsGame b my opp row col) →
      (∀ (d : Int × Int) (j : Nat), d ∈ ds → 0 < j →
        inb ((row : Int) + j * d.1) ((col : Int) + j * d.2) →
        cellI bcur ((row : Int) + j * d.1) ((col : Int) + j * d.2) =
          cellI b ((row : Int) + j * d.1) ((col : Int) + j * d.2)) →
      ∃ b2, flipAllG my opp (row : Int) (col : Int) ds bcur = some b2 ∧ WFb b2 := by
  intro ds
  induction ds with
  | nil => intro bcur _ hwf _ _; exact ⟨bcur, rfl, hwf⟩
  | cons d rest ih =>
    intro bcur hnodup hwf hsub hagree
    obtain ⟨hd, hmo, n, hn, hn8, hrun, hinbT, hmyT⟩ :=
      searchDirs_sound b my opp row col d (hsub d (List.mem_cons_self _ _))
    -- transport the run and its terminator from `b` to `bcur`
    have hrun1 : ∀ i : Nat, i < n →
        inb ((row : Int) + d.1 + i * d.1) ((col : Int) + d.2 + i * d.2) ∧
        cellI bcur ((row : Int) + d.1 + i * d.1) ((col : Int) + d.2 + i * d.2) = opp := by
      intro i hi
      have h := hrun (i + 1) (by omega) (by omega)
      rw [show (row : Int) + ((i + 1 : Nat) : Int) * d.1 = (row : Int) + d.1 + (i : Int) * d.1 by
          push_cast; ring,
        show (col : Int) + ((i + 1 : Nat) : Int) * d.2 = (col : Int) + d.2 + (i : Int) * d.2 by
          push_cast; ring] at h
      refine ⟨h.1, ?_⟩
      rw [show (row : Int) + d.1 + (i : Int) * d.1 = (row : Int) + ((i + 1 : Nat) : Int) * d.1 by
          push_cast; ring,
        show (col : Int) + d.2 + (i : Int) * d.2 = (col : Int) + ((i + 1 : Nat) : Int) * d.2 by
          push_cast; ring]
      rw [hagree d (i + 1) ((List.mem_cons_self _ _)) (by omega) ?hinbpos]
      · exact (hrun (i + 1) (by omega) (by omega)).2
      case hinbpos =>
        exact (hrun (i + 1) (by omega) (by omega)).1
    have hinb1 : inb ((row : Int) + d.1 + n * d.1) ((col : Int) + d.2 + n * d.2) := by
      rw [show (row : Int) + d.1 + (n : Int) * d.1 = (row : Int) + ((n : Int) + 1) * d.1 by ring,
        show (col : Int) + d.2 + (n : Int) * d.2 = (col : Int) + ((n : Int) + 1) * d.2 by ring]
      exact hinbT
    have hmy1 : cellI bcur ((row : Int) + d.1 + n * d.1) ((col : Int) + d.2 + n * d.2) = my := by
      rw [show (row : Int) + d.1 + (n : Int) * d.1 = (row : Int) + ((n + 1 : Nat) : Int) * d.1 by
          push_cast; ring,
        show (col : Int) + d.2 + (n : Int) * d.2 = (col : Int) + ((n + 1 : Nat) : Int) * d.2 by
          push_cast; ring]
      rw [hagree d (n + 1) ((List.mem_cons_self _ _)) (by omega) ?hpos2]
      · rw [show (row : Int) + ((n + 1 : Nat) : Int) * d.1 = (row : Int) + ((n : Int) + 1) * d.1 by
            push_cast; ring,
          show (col : Int) + ((n + 1 : Nat) : Int) * d.2 = (col : Int) + ((n : Int) + 1) * d.2 by
            push_cast; ring]
        exact hmyT
      case hpos2 =>
        rw [show (row : Int) + ((n + 1 : Nat) : Int) * d.1 = (row : Int) + ((n : Int) + 1) * d.1 by
            push_cast; ring,
          show (col : Int) + ((n + 1 : Nat) : Int) * d.2 = (col : Int) + ((n : Int) + 1) * d.2 by
            push_cast; ring]
        exact hinbT
    obtain ⟨bnext, hflip, hwfn, hframe⟩ :=
      flipG_ok my opp d hd hmo n 16 bcur ((row : Int) + d.1) ((col : Int) + d.2) hwf
        (by omega) hrun1 hinb1 hmy1
    have hdisj : ∀ (e : Int × Int) (j : Nat), e ∈ rest → 0 < j →
        inb ((row : Int) + j * e.1) ((col : Int) + j * e.2) →
        cellI bnext ((row : Int) + j * e.1) ((col : Int) + j * e.2) =
          cellI b ((row : Int) + j * e.1) ((col : Int) + j * e.2) := by
      intro e j hein hj hinbe
      have hne : d ≠ e := fun hde => (List.nodup_cons.mp hnodup).1 (hde ▸ hein)
      have hee' : e ∈ searchDirsGame b my opp row col := hsub e (List.mem_cons_of_mem d hein)
      have he : e ∈ DIRECTIONS := (List.mem_filter.mp hee').1
      rw [hframe _ _ hinbe ?havoid]
      · exact hagree e j (List.mem_cons_of_mem d hein) hj hinbe
      case havoid =>
        rintro i hi ⟨e1, e2⟩
        refine rays_disjoint d e hd he hne (i + 1) j (by omega) hj ?_ ?_
        · push_cast at e1 ⊢; linear_combination -e1
        · push_cast at e2 ⊢; linear_combination -e2
    obtain ⟨b2, hall, hwf2⟩ := ih bnext (List.nodup_cons.mp hnodup).2 hwfn
      (fun e hee => hsub e (List.mem_cons_of_mem d hee)) hdisj
    refine ⟨b2, ?_, hwf2⟩
    rw [flipAllG, hflip, Option.some_bind, hall]

/-- What membership in the Game Engine's legal-move map means. -/
theorem searchLM_mem (b : Board) (my opp : COLOR) (r0 c0 : Nat) (ds : List (Int × Int))
    (h : ((r0, c0), ds) ∈ searchLegalMovesGame b my opp) :
    r0 < 8 ∧ c0 < 8 ∧ ds = searchDirsGame b my opp r0 c0 ∧ ds ≠ [] := by
  rw [searchLegalMovesGame, List.mem_flatMap] at h
  obtain ⟨row, hrow, h⟩ := h
  rw [List.mem_filterMap] at h
  obtain ⟨col, hcol, heq⟩ := h
  rw [List.mem_range] at hrow hcol
  by_cases hu : cellN b row col = COLOR.UNTOUCHED
  · rw [if_pos hu] at heq
    by_cases hds : searchDirsGame b my opp row col = []
    · rw [if_pos hds] at heq
      exact absurd heq (by simp)
    · rw [if_neg hds] at heq
      simp only [Option.some_inj, Prod.mk.injEq] at heq
      obtain ⟨⟨rfl, rfl⟩, rfl⟩ := heq
      exact ⟨hrow, hcol, rfl, hds⟩
  · rw [if_neg hu] at heq
    exact absurd heq (by simp)

/-- A successful lookup in the stored map comes from an entry of the scan. -/
theorem findMove_intKeys (l : List ((Nat × Nat) × List (Int × Int))) (row col : Int)
    (ds : List (Int × Int)) :
    findMove (intKeys l) row col = some ds →
    ∃ r0 c0 : Nat, ((r0, c0), ds) ∈ l ∧ row = (r0 : Int) ∧ col = (c0 : Int) := by
  induction l with
  | nil => intro h; exact absurd h (by simp [intKeys, findMove])
  | cons e rest ih =>
    intro h
    obtain ⟨⟨r0, c0⟩, ds0⟩ := e
    simp only [intKeys, List.map_cons] at h
    rw [findMove] at h
    by_cases hk : (((r0 : Nat) : Int), ((c0 : Nat) : Int)) = ((row : Int), (col : Int))
    · rw [if_pos hk] at h
      injection hk with hkr hkc
      obtain rfl := Option.some_inj.mp h
      exact ⟨r0, c0, List.mem_cons_self _ _, hkr.symm, hkc.symm⟩
    · rw [if_neg hk] at h
      obtain ⟨r1, c1, hm, e1, e2⟩ := ih (by simpa [intKeys] using h)
      exact ⟨r1, c1, List.mem_cons_of_mem _ hm, e1, e2⟩

/-- The tail of a successful `move`: either the board is full and the game
ends, or the side is switched; both return normally when the game was
running. -/
theorem moveTail_isSome (g1 : Game) (h : g1.state.is_running = true) :
    (if g1.remain = 0 then some (endGame g1) else switchSide g1).isSome = true := by
  by_cases hrem : g1.remain = 0
  · rw [if_pos hrem]
    rfl
  · rw [if_neg hrem, switchSide, if_pos h]
    rfl

/-- Claim C10 counterexample: the claim's "either applies a legal move or
takes the caught-error branch" fails at a reachable running state.  At the
end of the wipe-out game the engine is running-white with black's stale
7-entry map still installed (see C4), and white has NO legal move at all on
the current board; yet `move(2, 2)` - a stale key - returns normally with a
MUTATED board (so it did not take the caught-`KeyError` branch, which leaves
the game unchanged) although it applied no legal move: it placed a white
piece from black's stale map and recolored the run below it for the wrong
side. -/
theorem C10_counterexample :
    traceC4 = some gStale ∧
    gStale.state.is_running = true ∧
    searchLegalMovesGame gStale.board gStale.my_color gStale.opp_color = [] ∧
    (moveG gStale 2 2).isSome = true ∧
    (moveG gStale 2 2).map (fun g2 => decide (g2.board = gStale.board)) = some false ∧
    moveG gStale 2 2 ≠ some gStale := by
  refine ⟨rfl, rfl, by rfl, by rfl, by rfl, by decide⟩

/-- Claim C10 amended: whenever the game is running with a well-formed board
and its stored legal-move map is the legality scan of the current board for
the current colors (the consistent-map states; after a turn in which the
incoming side had no legal move the map goes stale and a stale key is
applied as if legal - see the counterexample), `move` returns normally for
EVERY pair of integers: an unknown cell (out of bounds, occupied, or simply
not legal) takes the caught-`KeyError` branch, and a key of the map applies
the move - its flip loops provably stay in bounds and terminate - and ends
or switches the turn.  No exception escapes. -/
theorem C10_move_total (g : Game)
    (hwf : WFb g.board)
    (hrun : g.state.is_running = true)
    (hmap : g.legal_moves = intKeys (searchLegalMovesGame g.board g.my_color g.opp_color))
    (row col : Int) :
    (moveG g row col).isSome = true := by
  rw [moveG]
  split
  · rfl
  next ds hf =>
    rw [hmap] at hf
    obtain ⟨r0, c0, hmem, rfl, rfl⟩ := findMove_intKeys _ _ _ _ hf
    obtain ⟨hr8, hc8, hds, -⟩ := searchLM_mem _ _ _ _ _ _ hmem
    subst hds
    have hinb0 : inb (r0 : Int) (c0 : Int) := by simp only [inb]; omega
    rw [pySet_inb g.board hwf _ _ g.my_color hinb0, Option.some_bind]
    have hwf0 : WFb (setCell g.board ((r0 : Int)).toNat ((c0 : Int)).toNat g.my_color) :=
      WFb_setCell g.board hwf _ _ (by omega) g.my_color
    have hagree : ∀ (d : Int × Int) (j : Nat),
        d ∈ searchDirsGame g.board g.my_color g.opp_color r0 c0 → 0 < j →
        inb ((r0 : Int) + j * d.1) ((c0 : Int) + j * d.2) →
        cellI (setCell g.board ((r0 : Int)).toNat ((c0 : Int)).toNat g.my_color)
            ((r0 : Int) + j * d.1) ((c0 : Int) + j * d.2) =
          cellI g.board ((r0 : Int) + j * d.1) ((c0 : Int) + j * d.2) := by
      intro d j hdm hj hinbj
      obtain ⟨hd, -, -⟩ := searchDirs_sound g.board g.my_color g.opp_color r0 c0 d hdm
      apply cellI_setCell_ne g.board (r0 : Int) (c0 : Int) _ _ hinb0 hinbj
      rintro ⟨e1, e2⟩
      have hz : ((j : Nat) : Int) = ((0 : Nat) : Int) := by
        refine dir_step_inj d hd j 0 ?_ ?_
        · linear_combination e1
        · linear_combination e2
      omega
    obtain ⟨b2, hall, -⟩ := flipAllG_ok g.board g.my_color g.opp_color r0 c0
      (searchDirsGame g.board g.my_color g.opp_color r0 c0)
      (setCell g.board ((r0 : Int)).toNat ((c0 : Int)).toNat g.my_color)
      (searchDirs_nodup _ _ _ _ _) hwf0 (fun _ hdm => hdm) hagree
    rw [hall, Option.some_bind]
    exact moveTail_isSome (countBoardG { g with board := b2 }) hrun

/-- Claim C10, witnessed on a freshly started game with an out-of-bounds
request and with a legal request. -/
theorem C10_move_total_w :
    (moveG g0ex 99 (-42)).isSome = true ∧ (moveG g0ex 2 3).isSome = true :=
  ⟨C10_move_total g0ex (by decide) (by decide) (by decide) 99 (-42),
   C10_move_total g0ex (by decide) (by decide) (by decide) 2 3⟩
